import Mathlib

/-!
Shallow embedding of the teamfight detection and segmentation pipeline of the
league-of-legends match intelligence system, together with proofs of the
specification's testable properties.

The embedding follows the repository's Python sources:
  * `src/services/feature_extractor.py`  (build_window_features)
  * `src/services/teamfight_detector.py` (score_window_row, clusters_to_fights,
    the detect_teamfights survivor filter)
  * `src/services/fight_summarizer.py`   (_summarize_kills, _summarize_objectives,
    summarize_fights)

Machine floats are modelled as rationals; pandas tables are modelled as lists of
typed rows together with an explicit column-name list, so that the schema of an
empty table is observable.
-/

/-! ### Feature extractor (`build_window_features`) -/

/-- A row of the kill-event table produced by the timeline parser.  Per the
input contract, `window_30s` is a non-null integer bucket index, killer and
victim ids are nullable integers, and `assists` is a sequence whose entries may
be null (a non-integer entry behaves like null under the source's guards). -/
structure KillRow where
  window_30s : Int
  killerId : Option Int
  victimId : Option Int
  assists : List (Option Int)
  n_assists : Int
  deriving DecidableEq, Repr

/-- A row of the objective-event table.  Only the window bucket and the monster
type are consumed by `build_window_features` (the `timestamp_s` column is used
solely as a value to count, so it is omitted). -/
structure ObjRow where
  window_30s : Int
  monsterType : String
  deriving DecidableEq, Repr

/-- The series the source selects its window indices from: the kill table's
`window_30s` column when the kill table is nonempty, otherwise the objective
table's `window_30s` column.  Because `window_30s` is non-null, the source's
`dropna` is the identity here. -/
def sourceWindows (kills : List KillRow) (objs : List ObjRow) : List Int :=
  if kills.isEmpty then objs.map ObjRow.window_30s else kills.map KillRow.window_30s

/-- Append a value to an accumulator unless it is already present; folding this
over a list reproduces pandas `unique` (distinct values in first-seen order). -/
def insFirst (acc : List Int) (w : Int) : List Int :=
  if w ∈ acc then acc else acc ++ [w]

/-- Distinct values of a list in order of first appearance. -/
def uniqueFirst (l : List Int) : List Int :=
  l.foldl insFirst []

/-- The window index domain: `sorted(windows.unique())` in the source. -/
def windowDomain (kills : List KillRow) (objs : List ObjRow) : List Int :=
  List.insertionSort (· ≤ ·) (uniqueFirst (sourceWindows kills objs))

/-- Add one nullable participant id to the id set, skipping nulls and the
sentinel id `0` (the guard applied to killer, victim and each assist in the
source's `participants_in_window`). -/
def addId (s : Finset Int) (a : Option Int) : Finset Int :=
  match a with
  | some x => if x ≠ 0 then insert x s else s
  | none => s

/-- One step of the participant-set accumulation of `participants_in_window`:
add the row's killer, victim and assist ids, skipping nulls and the sentinel
id `0`. -/
def addRowParticipants (ids : Finset Int) (r : KillRow) : Finset Int :=
  r.assists.foldl addId (addId (addId ids r.killerId) r.victimId)

/-- The set built by the source's `participants_in_window` over the kill rows
of one window. -/
def participantsInWindow (sub : List KillRow) : Finset Int :=
  sub.foldl addRowParticipants ∅

/-- Add a row's killer id (null dropped, sentinel `0` kept) to the killer
set. -/
def addKiller (s : Finset Int) (r : KillRow) : Finset Int :=
  match r.killerId with
  | some k => insert k s
  | none => s

/-- The set underlying `unique_killers`: pandas `nunique(dropna=True)` counts
distinct non-null killer ids (the sentinel `0` is not dropped). -/
def killersSet (sub : List KillRow) : Finset Int :=
  sub.foldl addKiller ∅

/-- Kill rows belonging to one window bucket. -/
def killsInWindow (kills : List KillRow) (w : Int) : List KillRow :=
  kills.filter (fun r => decide (r.window_30s = w))

/-- Objective rows belonging to one window bucket. -/
def objsInWindow (objs : List ObjRow) (w : Int) : List ObjRow :=
  objs.filter (fun o => decide (o.window_30s = w))

/-- Count of objective events of one monster type in one window (the source's
`pivot_table` count with `fill_value=0`). -/
def monsterCount (objs : List ObjRow) (w : Int) (m : String) : Nat :=
  (objs.filter (fun o => decide (o.window_30s = w ∧ o.monsterType = m))).length

/-- A row of the `WindowFeature` table. -/
structure WindowRow where
  window_30s : Int
  t_start_s : Int
  t_end_s : Int
  kill_count : Nat
  unique_participants : Nat
  unique_killers : Nat
  avg_assists : Rat
  objective_count : Nat
  dragon_count : Nat
  baron_count : Nat
  herald_count : Nat
  atakhan_count : Nat
  deriving DecidableEq, Repr

/-- The feature row of one window.  In the source the kill aggregates come from
left merges onto the window domain with `fillna(0)`; since the domain windows
taken from the kill table always contain at least one kill, counting over the
per-window filter reproduces those merges exactly (and yields the explicit
zeros of the `df_kills.empty` / `df_obj.empty` branches). -/
def buildRow (kills : List KillRow) (objs : List ObjRow) (w : Int) : WindowRow :=
  let sub := killsInWindow kills w
  { window_30s := w
    t_start_s := w * 30
    t_end_s := w * 30 + 30
    kill_count := sub.length
    unique_participants := (participantsInWindow sub).card
    unique_killers := (killersSet sub).card
    avg_assists := if sub.isEmpty then 0
      else (sub.map (fun r => (r.n_assists : Rat))).sum / (sub.length : Rat)
    objective_count := (objsInWindow objs w).length
    dragon_count := monsterCount objs w "DRAGON"
    baron_count := monsterCount objs w "BARON_NASHOR"
    herald_count := monsterCount objs w "RIFTHERALD"
    atakhan_count := monsterCount objs w "ATAKHAN" }

/-- Column names of the `WindowFeature` table, in the source's order. -/
def wfCols : List String :=
  ["window_30s", "t_start_s", "t_end_s", "kill_count", "unique_participants",
   "unique_killers", "avg_assists", "objective_count", "dragon_count",
   "baron_count", "herald_count", "atakhan_count"]

/-- A `WindowFeature` table: explicit column names plus typed rows, so that an
empty table still carries its schema. -/
structure WindowTable where
  cols : List String
  rows : List WindowRow
  deriving DecidableEq, Repr

/-- Embedding of `build_window_features`. -/
def build_window_features (kills : List KillRow) (objs : List ObjRow) : WindowTable :=
  if (sourceWindows kills objs).isEmpty then ⟨wfCols, []⟩
  else ⟨wfCols, (windowDomain kills objs).map (buildRow kills objs)⟩

/-! ### Teamfight detector (`score_window_row`, `clusters_to_fights`) -/

/-- A clustered window row: the `WindowFeature` columns consumed by
`clusters_to_fights` plus the `cluster_id` produced by DBSCAN.  Numeric counts
are integers as in the CSV; `avg_assists` is rational. -/
structure ClusteredRow where
  match_id : String
  t_start_s : Int
  t_end_s : Int
  kill_count : Int
  unique_participants : Int
  avg_assists : Rat
  objective_count : Int
  dragon_count : Int
  baron_count : Int
  herald_count : Int
  atakhan_count : Int
  cluster_id : Int
  deriving DecidableEq, Repr

/-- The scoring weights of `FightScoringConfig`, with the source's defaults. -/
structure FightScoringConfig where
  kill_weight : Rat := 3
  participants_weight : Rat := 3 / 2
  objective_weight : Rat := 4
  baron_bonus : Rat := 6
  dragon_bonus : Rat := 3
  herald_bonus : Rat := 2
  atakhan_bonus : Rat := 4
  deriving DecidableEq, Repr

/-- The default scoring configuration. -/
def defaultScoring : FightScoringConfig := {}

/-- Embedding of `score_window_row`. -/
def score_window_row (row : ClusteredRow) (s : FightScoringConfig) : Rat :=
  let obj_score :=
    s.objective_weight * (row.objective_count : Rat)
      + s.baron_bonus * (row.baron_count : Rat)
      + s.dragon_bonus * (row.dragon_count : Rat)
      + s.herald_bonus * (row.herald_count : Rat)
      + s.atakhan_bonus * (row.atakhan_count : Rat)
  s.kill_weight * (row.kill_count : Rat)
    + s.participants_weight * (row.unique_participants : Rat)
    + obj_score

/-- A row of the detected-fights table. -/
structure FightRow where
  match_id : String
  cluster_id : Int
  segment_id : Int
  fight_start_s : Int
  fight_end_s : Int
  duration_s : Int
  window_count : Nat
  kills_total : Int
  kills_peak : Int
  participants_peak : Int
  objectives_total : Int
  barons_total : Int
  dragons_total : Int
  heralds_total : Int
  atakhans_total : Int
  fight_score : Rat
  deriving DecidableEq, Repr

/-- Column names of the empty fights table returned when every window is noise
(lines 100-121 of `teamfight_detector.py`). -/
def fightCols : List String :=
  ["match_id", "cluster_id", "segment_id", "fight_start_s", "fight_end_s",
   "duration_s", "window_count", "kills_total", "kills_peak",
   "participants_peak", "objectives_total", "barons_total", "dragons_total",
   "heralds_total", "atakhans_total", "fight_score"]

/-- Column names of the nonempty fights table: the `groupby.agg` columns with
`duration_s` appended last by the assignment after the aggregation. -/
def fightColsNonempty : List String :=
  ["match_id", "cluster_id", "segment_id", "fight_start_s", "fight_end_s",
   "window_count", "kills_total", "kills_peak", "participants_peak",
   "objectives_total", "barons_total", "dragons_total", "heralds_total",
   "atakhans_total", "fight_score", "duration_s"]

/-- A detected-fights table with its schema. -/
structure FightTable where
  cols : List String
  rows : List FightRow
  deriving DecidableEq, Repr

/-- Sort key within a `(match_id, cluster_id)` group: ascending window start
time. -/
def rowLE (a b : ClusteredRow) : Prop := a.t_start_s ≤ b.t_start_s

instance : DecidableRel rowLE := fun a b =>
  inferInstanceAs (Decidable (a.t_start_s ≤ b.t_start_s))

instance : IsTotal ClusteredRow rowLE := ⟨fun a b => le_total a.t_start_s b.t_start_s⟩

instance : IsTrans ClusteredRow rowLE := ⟨fun _ _ _ h1 h2 => le_trans h1 h2⟩

/-- The final output ordering of `clusters_to_fights`: match id ascending,
fight score descending. -/
def fightLE (a b : FightRow) : Prop :=
  a.match_id < b.match_id ∨ (a.match_id = b.match_id ∧ b.fight_score ≤ a.fight_score)

instance : DecidableRel fightLE := fun a b =>
  inferInstanceAs (Decidable (a.match_id < b.match_id ∨
    (a.match_id = b.match_id ∧ b.fight_score ≤ a.fight_score)))

/-- Split a start-sorted list of group rows into contiguous chunks, starting a
new chunk exactly when `curr.t_start_s - prev.t_end_s > G` (the cumulative-sum
segment numbering of the source, expressed recursively). -/
def splitByGap (G : Int) : List ClusteredRow → List (List ClusteredRow)
  | [] => []
  | [r] => [[r]]
  | r :: r2 :: rest =>
    if r2.t_start_s - r.t_end_s > G then
      [r] :: splitByGap G (r2 :: rest)
    else
      match splitByGap G (r2 :: rest) with
      | [] => [[r]]
      | c :: cs => (r :: c) :: cs

/-- Aggregate one segment's rows into a `FightRow` (the `groupby.agg` of the
source, plus `duration_s`).  A segment is never empty; the `[]` case is a junk
value for totality. -/
def aggSegment (scoring : FightScoringConfig) (m : String) (c : Int) (sid : Nat) :
    List ClusteredRow → FightRow
  | [] =>
    { match_id := m, cluster_id := c, segment_id := (sid : Int), fight_start_s := 0,
      fight_end_s := 0, duration_s := 0, window_count := 0, kills_total := 0,
      kills_peak := 0, participants_peak := 0, objectives_total := 0,
      barons_total := 0, dragons_total := 0, heralds_total := 0,
      atakhans_total := 0, fight_score := 0 }
  | r :: rs =>
    let fstart := rs.foldl (fun a x => min a x.t_start_s) r.t_start_s
    let fend := rs.foldl (fun a x => max a x.t_end_s) r.t_end_s
    { match_id := m
      cluster_id := c
      segment_id := (sid : Int)
      fight_start_s := fstart
      fight_end_s := fend
      duration_s := fend - fstart
      window_count := rs.length + 1
      kills_total := rs.foldl (fun a x => a + x.kill_count) r.kill_count
      kills_peak := rs.foldl (fun a x => max a x.kill_count) r.kill_count
      participants_peak :=
        rs.foldl (fun a x => max a x.unique_participants) r.unique_participants
      objectives_total := rs.foldl (fun a x => a + x.objective_count) r.objective_count
      barons_total := rs.foldl (fun a x => a + x.baron_count) r.baron_count
      dragons_total := rs.foldl (fun a x => a + x.dragon_count) r.dragon_count
      heralds_total := rs.foldl (fun a x => a + x.herald_count) r.herald_count
      atakhans_total := rs.foldl (fun a x => a + x.atakhan_count) r.atakhan_count
      fight_score :=
        rs.foldl (fun a x => a + score_window_row x scoring) (score_window_row r scoring) }

/-- Aggregate the chunks of one group into fight rows with zero-based segment
ids in time order. -/
def segsFrom (scoring : FightScoringConfig) (m : String) (c : Int) :
    Nat → List (List ClusteredRow) → List FightRow
  | _, [] => []
  | sid, ch :: chs => aggSegment scoring m c sid ch :: segsFrom scoring m c (sid + 1) chs

/-- Append a group key to an accumulator unless present; folding this gives the
groupby keys in first-seen order. -/
def insFirstKey (acc : List (String × Int)) (k : String × Int) : List (String × Int) :=
  if k ∈ acc then acc else acc ++ [k]

/-- The distinct `(match_id, cluster_id)` keys of the kept rows. -/
def groupKeys (rows : List ClusteredRow) : List (String × Int) :=
  rows.foldl (fun acc r => insFirstKey acc (r.match_id, r.cluster_id)) []

/-- The rows of one `(match_id, cluster_id)` group. -/
def groupRows (kept : List ClusteredRow) (k : String × Int) : List ClusteredRow :=
  kept.filter (fun r => decide (r.match_id = k.1 ∧ r.cluster_id = k.2))

/-- All fight rows of one group: sort the group's rows by window start time,
split at gaps larger than `G`, aggregate each chunk. -/
def groupFights (scoring : FightScoringConfig) (G : Int) (kept : List ClusteredRow)
    (k : String × Int) : List FightRow :=
  segsFrom scoring k.1 k.2 0 (splitByGap G (List.insertionSort rowLE (groupRows kept k)))

/-- Embedding of `clusters_to_fights`. -/
def clusters_to_fights (input : List ClusteredRow) (scoring : FightScoringConfig)
    (window_seconds : Int) (max_gap_windows : Int) : FightTable :=
  let kept := input.filter (fun r => decide (0 ≤ r.cluster_id))
  if kept.isEmpty then ⟨fightCols, []⟩
  else
    let G := window_seconds * max_gap_windows
    let segs := ((groupKeys kept).map (groupFights scoring G kept)).flatten
    ⟨fightColsNonempty, List.insertionSort fightLE segs⟩

/-- The survivor predicate of `detect_teamfights`:
`window_count >= 2 and participants_peak >= 6`. -/
def survivesFilter (f : FightRow) : Bool :=
  decide (2 ≤ f.window_count) && decide (6 ≤ f.participants_peak)

/-- The filtering step of `detect_teamfights` applied to a fights table. -/
def filterFights (t : FightTable) : FightTable :=
  ⟨t.cols, t.rows.filter survivesFilter⟩

/-! ### Fight summarizer (`_summarize_kills`, `_summarize_objectives`,
`summarize_fights`) -/

/-- A raw timeline event as consumed by the summarizer.  JSON fields that fail
the source's `isinstance` guards behave like absent ones, so nullable fields
are options and a non-integer list entry is `none`. -/
structure TLEvent where
  timestamp : Option Int
  type : String
  killerId : Option Int
  victimId : Option Int
  assistingParticipantIds : List (Option Int)
  assists : List (Option Int)
  monsterType : Option String
  buildingType : Option String
  deriving DecidableEq, Repr

/-- The killer id of an event when it passes the source's validity guard
`isinstance(killer, int) and killer != 0`. -/
def validKiller (e : TLEvent) : Option Int :=
  match e.killerId with
  | some k => if k ≠ 0 then some k else none
  | none => none

/-- The assist list the source settles on:
`ev.get("assistingParticipantIds", []) or ev.get("assists", [])`. -/
def eventAssists (e : TLEvent) : List (Option Int) :=
  if e.assistingParticipantIds.isEmpty then e.assists else e.assistingParticipantIds

/-- The valid (integer, non-sentinel) assist ids of an assist list. -/
def validAssists (l : List (Option Int)) : List Int :=
  l.filterMap (fun a => match a with
    | some x => if x ≠ 0 then some x else none
    | none => none)

/-- Display name of the killer: champion from the map, bare id string when
unmapped, `"Unknown"` for the sentinel or an absent killer. -/
def killerName (pidMap : Int → Option String) (killerId : Option Int) : String :=
  match killerId with
  | some k => if k ≠ 0 then (pidMap k).getD (toString k) else "Unknown"
  | none => "Unknown"

/-- Display name of the victim: champion from the map, `"P{id}"` when
unmapped, `"Unknown"` for the sentinel or an absent victim. -/
def victimName (pidMap : Int → Option String) (victimId : Option Int) : String :=
  match victimId with
  | some v => if v ≠ 0 then (pidMap v).getD ("P" ++ toString v) else "Unknown"
  | none => "Unknown"

/-- Display names of the valid assist ids, `"P{id}"` when unmapped. -/
def assistNames (pidMap : Int → Option String) (ids : List Int) : List String :=
  ids.map (fun a => (pidMap a).getD ("P" ++ toString a))

/-- One kill-feed line: `"{killer} -> {victim} (assists: a, b, ...)"`, the
assists clause omitted when there are no valid assists. -/
def feedLine (pidMap : Int → Option String) (e : TLEvent) : String :=
  let ks := killerName pidMap e.killerId
  let vs := victimName pidMap e.victimId
  let anames := assistNames pidMap (validAssists (eventAssists e))
  if anames.isEmpty then ks ++ " -> " ++ vs
  else ks ++ " -> " ++ vs ++ " (assists: " ++ String.intercalate ", " anames ++ ")"

/-- Increment the count of key `k` in an insertion-ordered association list,
appending a fresh entry at the end when absent (Python dict update order). -/
def bump (l : List (Int × Nat)) (k : Int) : List (Int × Nat) :=
  match l with
  | [] => [(k, 1)]
  | p :: rest => if p.1 = k then (p.1, p.2 + 1) :: rest else p :: bump rest k

/-- The mutable state of the `_summarize_kills` loop. -/
structure KillSummaryState where
  kill_feed : List String
  killer_counts : List (Int × Nat)
  involved : Finset Int
  deriving DecidableEq

/-- One iteration of the `_summarize_kills` loop. -/
def killStep (pidMap : Int → Option String) (st : KillSummaryState) (e : TLEvent) :
    KillSummaryState :=
  if e.type = "CHAMPION_KILL" then
    let st1 := match validKiller e with
      | some k =>
        { st with killer_counts := bump st.killer_counts k, involved := insert k st.involved }
      | none => st
    let st2 := match e.victimId with
      | some v => if v ≠ 0 then { st1 with involved := insert v st1.involved } else st1
      | none => st1
    let st3 :=
      { st2 with involved :=
          (validAssists (eventAssists e)).foldl (fun s a => insert a s) st2.involved }
    { st3 with kill_feed := st3.kill_feed ++ [feedLine pidMap e] }
  else st

/-- The `_summarize_kills` loop over a list of events. -/
def summarizeKillsGo (pidMap : Int → Option String) (st : KillSummaryState) :
    List TLEvent → KillSummaryState
  | [] => st
  | e :: es => summarizeKillsGo pidMap (killStep pidMap st e) es

/-- Embedding of `_summarize_kills`: kill feed, per-killer counts and the set
of involved participant ids. -/
def summarizeKills (events : List TLEvent) (pidMap : Int → Option String) :
    KillSummaryState :=
  summarizeKillsGo pidMap ⟨[], [], ∅⟩ events

/-- The objective tallies of `_summarize_objectives`. -/
structure ObjSummary where
  dragon : Nat
  baron : Nat
  herald : Nat
  atakhan : Nat
  tower : Nat
  inhib : Nat
  deriving DecidableEq, Repr

/-- One iteration of the `_summarize_objectives` loop. -/
def objStep (o : ObjSummary) (e : TLEvent) : ObjSummary :=
  if e.type = "ELITE_MONSTER_KILL" then
    match e.monsterType with
    | some "DRAGON" => { o with dragon := o.dragon + 1 }
    | some "BARON_NASHOR" => { o with baron := o.baron + 1 }
    | some "RIFTHERALD" => { o with herald := o.herald + 1 }
    | some "ATAKHAN" => { o with atakhan := o.atakhan + 1 }
    | _ => o
  else if e.type = "BUILDING_KILL" then
    match e.buildingType with
    | some "TOWER_BUILDING" => { o with tower := o.tower + 1 }
    | some "INHIBITOR_BUILDING" => { o with inhib := o.inhib + 1 }
    | _ => o
  else o

/-- Embedding of `_summarize_objectives`. -/
def summarizeObjectives (events : List TLEvent) : ObjSummary :=
  events.foldl objStep ⟨0, 0, 0, 0, 0, 0⟩

/-- Embedding of `_iter_events_in_range`: events whose integer millisecond
timestamp lies in `[t0*1000, t1*1000]`. -/
def eventsInRange (events : List TLEvent) (t0 t1 : Int) : List TLEvent :=
  events.filter (fun e => match e.timestamp with
    | some ts => decide (t0 * 1000 ≤ ts ∧ ts ≤ t1 * 1000)
    | none => false)

/-- The strict-maximum scan of the `summarize_fights` top-killer loop: the
first entry with the (strictly) highest count wins. -/
def topKillerFold (counts : List (Int × Nat)) : Option Int × Nat :=
  counts.foldl (fun acc p => if p.2 > acc.2 then (some p.1, p.2) else acc) (none, 0)

/-- The killer credited by the `_summarize_kills` loop for one event: the
valid killer id of a champion-kill event, `none` otherwise. -/
def killOf (e : TLEvent) : Option Int :=
  if e.type = "CHAMPION_KILL" then validKiller e else none

/-- The number of kill events credited to killer `p` in an event list. -/
def countKills (events : List TLEvent) (p : Int) : Nat :=
  (events.filter (fun e => decide (killOf e = some p))).length

/-- Position (in event order) of the first kill credited to `p`, if any. -/
def firstKillIdx (p : Int) : List TLEvent → Option Nat
  | [] => none
  | e :: es =>
    if killOf e = some p then some 0 else (firstKillIdx p es).map (· + 1)

/-- Relation between killers: `p`'s first credited kill occurs strictly before
`q`'s in event order. -/
def firstKillBefore (evs : List TLEvent) (p q : Int) : Prop :=
  ∃ ip iq, firstKillIdx p evs = some ip ∧ firstKillIdx q evs = some iq ∧ ip < iq

/-- Clip padding configuration (`ClipWindowConfig`). -/
structure ClipConfig where
  pre_s : Int := 8
  post_s : Int := 6
  deriving DecidableEq, Repr

/-- The tag list of one fight summary. -/
def fightTags (topKills : Nat) (o : ObjSummary) : List String :=
  (if 3 ≤ topKills then ["multi-kill"] else [])
    ++ (if 0 < o.dragon + o.baron + o.herald + o.atakhan then ["objective-fight"] else [])

/-- One output row of `summarize_fights`. -/
structure FightSummaryRow where
  match_id : String
  cluster_id : Int
  segment_id : Int
  fight_start_s : Int
  fight_end_s : Int
  clip_start_s : Int
  clip_end_s : Int
  kills_in_fight : Nat
  participants_est : Nat
  top_killer_participantId : Int
  top_killer_champ : String
  top_killer_kills : Nat
  obj_dragon : Nat
  obj_baron : Nat
  obj_herald : Nat
  obj_atakhan : Nat
  obj_tower : Nat
  obj_inhib : Nat
  champs_involved : String
  kill_feed : String
  tags : String
  deriving DecidableEq

/-- Embedding of one iteration of the `summarize_fights` loop for a surviving
fight row, given the match's timeline events and participant-to-champion map.
Note the source's `int(f.get("cluster_id") or -1)`: a cluster or segment id of
`0` is falsy in Python and is therefore replaced by `-1`. -/
def summarizeFight (pidMap : Int → Option String) (events : List TLEvent)
    (f : FightRow) (cfg : ClipConfig) : FightSummaryRow :=
  let evs := eventsInRange events f.fight_start_s f.fight_end_s
  let ks := summarizeKills evs pidMap
  let o := summarizeObjectives evs
  let top := topKillerFold ks.killer_counts
  let champs := ((ks.involved.image
      (fun pid => (pidMap pid).getD ("P" ++ toString pid))).sort (· ≤ ·))
  { match_id := f.match_id
    cluster_id := if f.cluster_id = 0 then -1 else f.cluster_id
    segment_id := if f.segment_id = 0 then -1 else f.segment_id
    fight_start_s := f.fight_start_s
    fight_end_s := f.fight_end_s
    clip_start_s := max 0 (f.fight_start_s - cfg.pre_s)
    clip_end_s := f.fight_end_s + cfg.post_s
    kills_in_fight := (evs.filter (fun e => decide (e.type = "CHAMPION_KILL"))).length
    participants_est := ks.involved.card
    top_killer_participantId := match top.1 with
      | some p => p
      | none => -1
    top_killer_champ := match top.1 with
      | some p => (pidMap p).getD "Unknown"
      | none => "None"
    top_killer_kills := top.2
    obj_dragon := o.dragon
    obj_baron := o.baron
    obj_herald := o.herald
    obj_atakhan := o.atakhan
    obj_tower := o.tower
    obj_inhib := o.inhib
    champs_involved := String.intercalate ";" champs
    kill_feed := String.intercalate " | " (ks.kill_feed.take 8)
    tags := String.intercalate ";" (fightTags top.2 o) }

/-! ### Concrete inputs used by counterexamples and witnesses -/

/-- A scoring configuration with every weight multiplied by a constant. -/
def scaleScoring (a : Rat) (s : FightScoringConfig) : FightScoringConfig :=
  { kill_weight := a * s.kill_weight
    participants_weight := a * s.participants_weight
    objective_weight := a * s.objective_weight
    baron_bonus := a * s.baron_bonus
    dragon_bonus := a * s.dragon_bonus
    herald_bonus := a * s.herald_bonus
    atakhan_bonus := a * s.atakhan_bonus }

/-- A kill event in window 0 (used to exhibit the window-domain behaviour). -/
def c1Kill : KillRow := ⟨0, some 1, some 2, [], 0⟩

/-- An objective event in window 5, a window with no kill events. -/
def c1Obj : ObjRow := ⟨5, "DRAGON"⟩

/-- A kill credited to the sentinel killer id 0 with no victim or assists
(an unattributed/environmental death within the input contract). -/
def c2Kill : KillRow := ⟨0, some 0, none, [], 0⟩

/-- Clustered window `[0, 30)` of the concrete two-window scenario. -/
def c7Row0 : ClusteredRow :=
  { match_id := "M1", t_start_s := 0, t_end_s := 30, kill_count := 4,
    unique_participants := 7, avg_assists := 0, objective_count := 0,
    dragon_count := 0, baron_count := 1, herald_count := 0, atakhan_count := 0,
    cluster_id := 0 }

/-- Clustered window `[30, 60)` of the concrete two-window scenario. -/
def c7Row1 : ClusteredRow :=
  { match_id := "M1", t_start_s := 30, t_end_s := 60, kill_count := 2,
    unique_participants := 6, avg_assists := 0, objective_count := 0,
    dragon_count := 0, baron_count := 0, herald_count := 0, atakhan_count := 0,
    cluster_id := 0 }

/-- The single fight segment the two-window scenario must produce. -/
def c7Seg : FightRow :=
  { match_id := "M1", cluster_id := 0, segment_id := 0, fight_start_s := 0,
    fight_end_s := 60, duration_s := 60, window_count := 2, kills_total := 6,
    kills_peak := 4, participants_peak := 7, objectives_total := 0,
    barons_total := 1, dragons_total := 0, heralds_total := 0,
    atakhans_total := 0, fight_score := 87 / 2 }

/-- Cluster-0 window `[0, 30)`, all counts zero. -/
def c3RowA : ClusteredRow :=
  { match_id := "M", t_start_s := 0, t_end_s := 30, kill_count := 0,
    unique_participants := 0, avg_assists := 0, objective_count := 0,
    dragon_count := 0, baron_count := 0, herald_count := 0, atakhan_count := 0,
    cluster_id := 0 }

/-- Cluster-0 window `[90, 120)`, separated from `c3RowA` by more than the
default 30-second tolerated gap. -/
def c3RowB : ClusteredRow :=
  { match_id := "M", t_start_s := 90, t_end_s := 120, kill_count := 0,
    unique_participants := 0, avg_assists := 0, objective_count := 0,
    dragon_count := 0, baron_count := 0, herald_count := 0, atakhan_count := 0,
    cluster_id := 0 }

/-- A noise window (cluster id `-1`). -/
def c9Noise : ClusteredRow :=
  { match_id := "M", t_start_s := 0, t_end_s := 30, kill_count := 1,
    unique_participants := 2, avg_assists := 0, objective_count := 0,
    dragon_count := 0, baron_count := 0, herald_count := 0, atakhan_count := 0,
    cluster_id := -1 }

/-- A champion kill by participant 7 on participant 8 with one assist by 9. -/
def killEvent (t : Int) (k v : Option Int) (a : List (Option Int)) : TLEvent :=
  { timestamp := some t, type := "CHAMPION_KILL", killerId := k, victimId := v,
    assistingParticipantIds := a, assists := [], monsterType := none,
    buildingType := none }

/-- An elite monster kill event. -/
def monsterEvent (t : Int) (m : String) : TLEvent :=
  { timestamp := some t, type := "ELITE_MONSTER_KILL", killerId := some 3,
    victimId := none, assistingParticipantIds := [], assists := [],
    monsterType := some m, buildingType := none }

/-- A fight row used to drive `summarizeFight` in witnesses. -/
def c10Fight : FightRow :=
  { match_id := "M", cluster_id := 1, segment_id := 0, fight_start_s := 0,
    fight_end_s := 60, duration_s := 60, window_count := 2, kills_total := 1,
    kills_peak := 1, participants_peak := 6, objectives_total := 1,
    barons_total := 1, dragons_total := 0, heralds_total := 0,
    atakhans_total := 0, fight_score := 0 }

/-! ### Helper lemmas -/

theorem mem_insFirst {acc : List Int} {w x : Int} :
    x ∈ insFirst acc w ↔ x ∈ acc ∨ x = w := by
  unfold insFirst
  by_cases h : w ∈ acc
  · simp only [if_pos h]
    constructor
    · exact Or.inl
    · rintro (hx | rfl)
      · exact hx
      · exact h
  · simp [if_neg h]

theorem mem_foldl_insFirst (l : List Int) :
    ∀ acc x, x ∈ l.foldl insFirst acc ↔ x ∈ acc ∨ x ∈ l := by
  induction l with
  | nil => simp
  | cons w ws ih =>
    intro acc x
    rw [List.foldl_cons, ih, mem_insFirst, List.mem_cons]
    tauto

theorem mem_uniqueFirst {l : List Int} {x : Int} : x ∈ uniqueFirst l ↔ x ∈ l := by
  unfold uniqueFirst
  rw [mem_foldl_insFirst]
  simp

theorem mem_windowDomain {kills : List KillRow} {objs : List ObjRow} {x : Int} :
    x ∈ windowDomain kills objs ↔ x ∈ sourceWindows kills objs := by
  unfold windowDomain
  rw [List.mem_insertionSort, mem_uniqueFirst]

theorem build_window_features_map_window (kills : List KillRow) (objs : List ObjRow) :
    (build_window_features kills objs).rows.map WindowRow.window_30s =
      if (sourceWindows kills objs).isEmpty then [] else windowDomain kills objs := by
  unfold build_window_features
  by_cases h : (sourceWindows kills objs).isEmpty
  · simp [h]
  · simp only [h, if_neg, Bool.false_eq_true, ite_false, List.map_map]
    exact List.map_congr_left (fun a _ => rfl) |>.trans (List.map_id _)

/-! ### Claims -/

/-- Claim C1 (counterexample).  The spec says the window index domain is the
union of the window indices of both input tables.  The code takes the kill
table's windows whenever the kill table is nonempty: window 5, present only in
the objective table, is missing from the output even though it is in the
union. -/
theorem c1_counterexample :
    (5 : Int) ∈ [c1Obj].map ObjRow.window_30s ∧
    (5 : Int) ∉ (build_window_features [c1Kill] [c1Obj]).rows.map WindowRow.window_30s := by
  decide

/-- Claim C1 (amended).  The window index domain of `build_window_features`
equals the distinct window indices of the kill table when the kill table is
nonempty, and of the objective table otherwise (`sourceWindows`); a window
index absent from both input tables never appears in the output. -/
theorem c1_window_domain_amended (kills : List KillRow) (objs : List ObjRow) (w : Int) :
    (w ∈ (build_window_features kills objs).rows.map WindowRow.window_30s ↔
      w ∈ sourceWindows kills objs) ∧
    (w ∉ kills.map KillRow.window_30s → w ∉ objs.map ObjRow.window_30s →
      w ∉ (build_window_features kills objs).rows.map WindowRow.window_30s) := by
  have hmain : w ∈ (build_window_features kills objs).rows.map WindowRow.window_30s ↔
      w ∈ sourceWindows kills objs := by
    rw [build_window_features_map_window]
    by_cases h : (sourceWindows kills objs).isEmpty
    · rw [if_pos h]
      rw [List.isEmpty_iff] at h
      simp [h]
    · rw [if_neg h]
      exact mem_windowDomain
  refine ⟨hmain, fun hk ho => ?_⟩
  rw [hmain]
  unfold sourceWindows
  by_cases h : kills.isEmpty
  · simpa [h] using ho
  · simpa [h] using hk

/-- Claim C1 (witness for the amended theorem): window 5 is in neither input of
the counterexample's kill-only table, hence not in the output. -/
theorem c1_window_domain_amended_witness :
    (5 : Int) ∉ (build_window_features [c1Kill] []).rows.map WindowRow.window_30s :=
  (c1_window_domain_amended [c1Kill] [] 5).2 (by decide) (by decide)

/-- Claim C8.  With both input tables empty, `build_window_features` returns an
empty table that still carries the full fixed twelve-column schema. -/
theorem c8_empty_schema :
    build_window_features [] [] =
      ⟨["window_30s", "t_start_s", "t_end_s", "kill_count", "unique_participants",
        "unique_killers", "avg_assists", "objective_count", "dragon_count",
        "baron_count", "herald_count", "atakhan_count"], []⟩ := by
  rfl

/-- Claim C9.  When no input row has a non-negative cluster id,
`clusters_to_fights` returns an empty table still carrying the full sixteen
fight-segment columns. -/
theorem c9_no_clusters_empty (input : List ClusteredRow) (scoring : FightScoringConfig)
    (w mgw : Int) (h : ∀ r ∈ input, r.cluster_id < 0) :
    clusters_to_fights input scoring w mgw =
      ⟨["match_id", "cluster_id", "segment_id", "fight_start_s", "fight_end_s",
        "duration_s", "window_count", "kills_total", "kills_peak",
        "participants_peak", "objectives_total", "barons_total", "dragons_total",
        "heralds_total", "atakhans_total", "fight_score"], []⟩ := by
  have hnil : input.filter (fun r => decide (0 ≤ r.cluster_id)) = [] := by
    refine List.filter_eq_nil_iff.mpr fun a ha => ?_
    simpa using not_le.mpr (h a ha)
  unfold clusters_to_fights
  rw [hnil]
  rfl

theorem score_scale (r : ClusteredRow) (s : FightScoringConfig) :
    score_window_row r (scaleScoring 2 s) = 2 * score_window_row r s := by
  simp only [score_window_row, scaleScoring]
  ring

theorem score_fold_scale (s : FightScoringConfig) (rs : List ClusteredRow) :
    ∀ a : Rat,
      rs.foldl (fun acc x => acc + score_window_row x (scaleScoring 2 s)) (2 * a) =
        2 * rs.foldl (fun acc x => acc + score_window_row x s) a := by
  induction rs with
  | nil => intro a; rfl
  | cons x xs ih =>
    intro a
    simp only [List.foldl_cons]
    rw [score_scale, ← mul_add]
    exact ih (a + score_window_row x s)

/-- Claim C6.  `score_window_row` is linear in the weights: doubling every
weight doubles the window score, and hence doubles every segment score (a
segment's `fight_score` is the sum of its windows' scores); a window whose
kill, participant, objective and per-monster counts are all zero scores
exactly 0. -/
theorem c6_scoring_linear (r : ClusteredRow) (s : FightScoringConfig) (m : String)
    (c : Int) (sid : Nat) (chunk : List ClusteredRow) :
    score_window_row r (scaleScoring 2 s) = 2 * score_window_row r s ∧
    (r.kill_count = 0 → r.unique_participants = 0 → r.objective_count = 0 →
      r.baron_count = 0 → r.dragon_count = 0 → r.herald_count = 0 →
      r.atakhan_count = 0 → score_window_row r s = 0) ∧
    (aggSegment (scaleScoring 2 s) m c sid chunk).fight_score =
      2 * (aggSegment s m c sid chunk).fight_score := by
  refine ⟨score_scale r s, ?_, ?_⟩
  · intro h1 h2 h3 h4 h5 h6 h7
    simp [score_window_row, h1, h2, h3, h4, h5, h6, h7]
  · cases chunk with
    | nil => simp [aggSegment]
    | cons x xs =>
      simp only [aggSegment]
      rw [score_scale]
      exact score_fold_scale s xs (score_window_row x s)

/-- Claim C6 (witness): for the all-zero window `c3RowA`, the doubled-weight
score is twice the default score, and the default score is exactly 0. -/
theorem c6_scoring_linear_witness :
    score_window_row c3RowA (scaleScoring 2 defaultScoring) =
      2 * score_window_row c3RowA defaultScoring ∧
    score_window_row c3RowA defaultScoring = 0 :=
  ⟨(c6_scoring_linear c3RowA defaultScoring "M" 0 0 []).1,
   (c6_scoring_linear c3RowA defaultScoring "M" 0 0 []).2.1 rfl rfl rfl rfl rfl rfl rfl⟩

theorem zero_not_mem_addId {s : Finset Int} (a : Option Int) (h : (0 : Int) ∉ s) :
    (0 : Int) ∉ addId s a := by
  cases a with
  | none => exact h
  | some x =>
    by_cases hx : x = 0
    · simpa [addId, hx] using h
    · simp [addId, hx, h, Ne.symm hx]

theorem zero_not_mem_foldl_addId (l : List (Option Int)) :
    ∀ s : Finset Int, (0 : Int) ∉ s → (0 : Int) ∉ l.foldl addId s := by
  induction l with
  | nil => exact fun s h => h
  | cons a as ih => exact fun s h => ih (addId s a) (zero_not_mem_addId a h)

theorem zero_not_mem_addRowParticipants {s : Finset Int} (r : KillRow)
    (h : (0 : Int) ∉ s) : (0 : Int) ∉ addRowParticipants s r :=
  zero_not_mem_foldl_addId r.assists _
    (zero_not_mem_addId r.victimId (zero_not_mem_addId r.killerId h))

theorem zero_not_mem_participantsFold (sub : List KillRow) :
    ∀ s : Finset Int, (0 : Int) ∉ s → (0 : Int) ∉ sub.foldl addRowParticipants s := by
  induction sub with
  | nil => exact fun s h => h
  | cons r rs ih => exact fun s h => ih _ (zero_not_mem_addRowParticipants r h)

theorem zero_not_mem_participantsInWindow (sub : List KillRow) :
    (0 : Int) ∉ participantsInWindow sub :=
  zero_not_mem_participantsFold sub ∅ (Finset.not_mem_empty 0)

theorem subset_addId (s : Finset Int) (a : Option Int) : s ⊆ addId s a := by
  cases a with
  | none => exact Finset.Subset.refl s
  | some x =>
    by_cases hx : x = 0
    · simp [addId, hx]
    · simp only [addId, if_pos hx]
      exact Finset.subset_insert x s

theorem subset_foldl_addId (l : List (Option Int)) :
    ∀ s : Finset Int, s ⊆ l.foldl addId s := by
  induction l with
  | nil => exact fun s => Finset.Subset.refl s
  | cons a as ih =>
    exact fun s => (subset_addId s a).trans (ih (addId s a))

theorem subset_addRowParticipants (s : Finset Int) (r : KillRow) :
    s ⊆ addRowParticipants s r :=
  ((subset_addId s r.killerId).trans (subset_addId _ r.victimId)).trans
    (subset_foldl_addId r.assists _)

theorem killer_mem_addRowParticipants {s : Finset Int} {r : KillRow} {k : Int}
    (hk : r.killerId = some k) (hk0 : k ≠ 0) : k ∈ addRowParticipants s r := by
  have h1 : k ∈ addId s r.killerId := by
    rw [hk]
    simp [addId, hk0]
  exact (subset_foldl_addId r.assists _) ((subset_addId _ r.victimId) h1)

theorem killersFold_subset_participantsFold (sub : List KillRow)
    (h : ∀ r ∈ sub, r.killerId ≠ some 0) :
    ∀ s t : Finset Int, s ⊆ t →
      sub.foldl addKiller s ⊆ sub.foldl addRowParticipants t := by
  induction sub with
  | nil => exact fun s t hst => hst
  | cons r rs ih =>
    intro s t hst
    have hr : ∀ x ∈ rs, x.killerId ≠ some 0 :=
      fun x hx => h x (List.mem_cons_of_mem r hx)
    refine ih hr _ _ ?_
    cases hkid : r.killerId with
    | none =>
      show addKiller s r ⊆ addRowParticipants t r
      rw [show addKiller s r = s by simp [addKiller, hkid]]
      exact hst.trans (subset_addRowParticipants t r)
    | some k =>
      have hk0 : k ≠ 0 := by
        intro h0
        exact h r (List.mem_cons_self r rs) (h0 ▸ hkid)
      show addKiller s r ⊆ addRowParticipants t r
      rw [show addKiller s r = insert k s by simp [addKiller, hkid]]
      refine Finset.insert_subset_iff.mpr
        ⟨killer_mem_addRowParticipants hkid hk0,
         hst.trans (subset_addRowParticipants t r)⟩

theorem killersSet_subset_participantsInWindow (sub : List KillRow)
    (h : ∀ r ∈ sub, r.killerId ≠ some 0) :
    killersSet sub ⊆ participantsInWindow sub :=
  killersFold_subset_participantsFold sub h ∅ ∅ (Finset.Subset.refl ∅)

/-- Claim C2 (counterexample).  A window containing one kill with the sentinel
killer id `0` and no victim produces `unique_participants = 0` but
`unique_killers = 1` (pandas `nunique(dropna=True)` keeps the value `0`), so
`unique_participants ≥ unique_killers` fails for a window with a kill. -/
theorem c2_counterexample :
    ∃ r ∈ (build_window_features [c2Kill] []).rows,
      1 ≤ r.kill_count ∧ r.unique_participants < r.unique_killers := by
  decide

/-- Claim C2 (amended).  `unique_participants` never counts the sentinel id
`0`, and `unique_participants ≥ unique_killers` holds for every window in
which no kill event carries the sentinel killer id `0` (null killer ids are
fine: they are dropped from both sides). -/
theorem c2_participants_amended (kills : List KillRow) (objs : List ObjRow)
    (row : WindowRow) (hrow : row ∈ (build_window_features kills objs).rows) :
    (0 : Int) ∉ participantsInWindow (killsInWindow kills row.window_30s) ∧
    row.unique_participants =
      (participantsInWindow (killsInWindow kills row.window_30s)).card ∧
    ((∀ r ∈ killsInWindow kills row.window_30s, r.killerId ≠ some 0) →
      row.unique_killers ≤ row.unique_participants) := by
  unfold build_window_features at hrow
  by_cases hempty : (sourceWindows kills objs).isEmpty
  · rw [if_pos hempty] at hrow
    exact absurd hrow (List.not_mem_nil row)
  · rw [if_neg hempty] at hrow
    obtain ⟨w, _, heq⟩ := List.mem_map.mp hrow
    subst heq
    refine ⟨zero_not_mem_participantsInWindow _, rfl, fun hsent => ?_⟩
    exact Finset.card_le_card (killersSet_subset_participantsInWindow _ hsent)

/-- Claim C2 (witness for the amended theorem): for the kill `1 → 2` in window
0, `unique_killers ≤ unique_participants` holds in the built feature row. -/
theorem c2_participants_amended_witness :
    (buildRow [c1Kill] [] 0).unique_killers ≤ (buildRow [c1Kill] [] 0).unique_participants :=
  (c2_participants_amended [c1Kill] [] (buildRow [c1Kill] [] 0)
    (List.mem_map_of_mem _ (show (0 : Int) ∈ windowDomain [c1Kill] [] by decide))).2.2
    (by decide)

theorem intercalate_go_nil (x s : String) : String.intercalate.go x s [] = x := rfl

/-- Claim C5 (counterexample).  The spec says a valid but unmapped killer id
falls back to `"P{id}"`; the code uses the bare id string for killers (only
victims and assists get the `P` prefix): the feed line for an unmapped killer
7 killing unmapped victim 8 is `"7 -> P8"`, not `"P7 -> P8"`. -/
theorem c5_counterexample :
    (summarizeKills [killEvent 0 (some 7) (some 8) []] (fun _ => none)).kill_feed
      = ["7 -> P8"] ∧ ("7 -> P8" : String) ≠ "P7 -> P8" := by
  decide

/-- Claim C5 (amended).  During summarization a valid but unmapped killer id
renders as the bare id string `"{id}"`, a valid but unmapped victim or assist
id renders as `"P{id}"`, and a sentinel (`0`) or absent killer or victim
renders as `"Unknown"`; resolution is total, so an unmapped id never fails the
summary. -/
theorem c5_placeholder_amended (m : Int → Option String) (k v a : Int)
    (hk : k ≠ 0) (hv : v ≠ 0) (ha : a ≠ 0)
    (hmk : m k = none) (hmv : m v = none) (hma : m a = none) :
    killerName m (some k) = toString k ∧
    victimName m (some v) = "P" ++ toString v ∧
    assistNames m [a] = ["P" ++ toString a] ∧
    killerName m (some 0) = "Unknown" ∧ killerName m none = "Unknown" ∧
    victimName m (some 0) = "Unknown" ∧ victimName m none = "Unknown" ∧
    feedLine m (killEvent 0 (some k) (some v) [some a]) =
      toString k ++ " -> " ++ ("P" ++ toString v) ++ " (assists: "
        ++ ("P" ++ toString a) ++ ")" := by
  refine ⟨?_, ?_, ?_, rfl, rfl, rfl, rfl, ?_⟩
  · simp [killerName, hk, hmk]
  · simp [victimName, hv, hmv]
  · simp [assistNames, hma]
  · simp [feedLine, killerName, victimName, assistNames, killEvent, eventAssists,
      validAssists, hk, hv, ha, hmk, hmv, hma, String.intercalate, intercalate_go_nil]

/-- Claim C5 (witness for the amended theorem) at killer 7, victim 8, assist 9
with an empty champion map. -/
theorem c5_placeholder_amended_witness :
    killerName (fun _ => none) (some 7) = "7" ∧
    victimName (fun _ => none) (some 8) = "P8" ∧
    feedLine (fun _ => none) (killEvent 0 (some 7) (some 8) [some 9]) =
      "7 -> P8 (assists: P9)" := by
  have h := c5_placeholder_amended (fun _ => none) 7 8 9 (by decide) (by decide)
    (by decide) rfl rfl rfl
  exact ⟨h.1, h.2.1, h.2.2.2.2.2.2.2⟩

/-- Claim C7.  On the concrete two contiguous windows of match `"M1"` (window
0: 4 kills, 7 participants, 1 baron; window 1: 2 kills, 6 participants) in one
cluster, `clusters_to_fights` with default weights produces exactly one
segment with `fight_score = 43.5`, `window_count = 2` and
`participants_peak = 7`, and the `detect_teamfights` filter keeps it. -/
theorem c7_concrete_pipeline :
    clusters_to_fights [c7Row0, c7Row1] defaultScoring 30 1 =
      ⟨fightColsNonempty, [c7Seg]⟩ ∧
    c7Seg.fight_score = 87 / 2 ∧ c7Seg.window_count = 2 ∧
    c7Seg.participants_peak = 7 ∧
    filterFights (clusters_to_fights [c7Row0, c7Row1] defaultScoring 30 1) =
      ⟨fightColsNonempty, [c7Seg]⟩ := by
  have hseg : aggSegment defaultScoring "M1" 0 0 [c7Row0, c7Row1] = c7Seg := by
    simp only [aggSegment, List.foldl, c7Seg, c7Row0, c7Row1, FightRow.mk.injEq]
    norm_num [score_window_row, defaultScoring]
  have h1 : clusters_to_fights [c7Row0, c7Row1] defaultScoring 30 1 =
      ⟨fightColsNonempty, [aggSegment defaultScoring "M1" 0 0 [c7Row0, c7Row1]]⟩ := rfl
  rw [h1, hseg]
  refine ⟨rfl, rfl, by decide, by decide, ?_⟩
  have hsf : survivesFilter c7Seg = true := by decide
  simp [filterFights, hsf]

theorem killStep_counts_of_no_valid_killer (m : Int → Option String) (e : TLEvent)
    (he : e.type = "CHAMPION_KILL" → validKiller e = none) (st : KillSummaryState) :
    (killStep m st e).killer_counts = st.killer_counts := by
  unfold killStep
  by_cases ht : e.type = "CHAMPION_KILL"
  · rw [if_pos ht, he ht]
    cases e.victimId with
    | none => simp
    | some v => by_cases hv : v = 0 <;> simp [hv]
  · rw [if_neg ht]

theorem summarizeKillsGo_counts_nil (m : Int → Option String) (evs : List TLEvent)
    (h : ∀ e ∈ evs, e.type = "CHAMPION_KILL" → validKiller e = none) :
    ∀ st : KillSummaryState, st.killer_counts = [] →
      (summarizeKillsGo m st evs).killer_counts = [] := by
  induction evs with
  | nil => exact fun st hst => hst
  | cons e es ih =>
    intro st hst
    refine ih (fun x hx => h x (List.mem_cons_of_mem e hx)) (killStep m st e) ?_
    rw [killStep_counts_of_no_valid_killer m e (h e (List.mem_cons_self e es))]
    exact hst

theorem summarizeKillsGo_append (m : Int → Option String) (l1 l2 : List TLEvent) :
    ∀ st, summarizeKillsGo m st (l1 ++ l2) =
      summarizeKillsGo m (summarizeKillsGo m st l1) l2 := by
  induction l1 with
  | nil => intro st; rfl
  | cons e es ih => intro st; exact ih (killStep m st e)

theorem killStep_counts (m : Int → Option String) (st : KillSummaryState) (e : TLEvent) :
    (killStep m st e).killer_counts =
      match killOf e with
      | some k => bump st.killer_counts k
      | none => st.killer_counts := by
  unfold killStep killOf
  by_cases ht : e.type = "CHAMPION_KILL"
  · rw [if_pos ht, if_pos ht]
    cases hvk : validKiller e with
    | none =>
      cases e.victimId with
      | none => simp
      | some v => by_cases hv : v = 0 <;> simp [hv]
    | some k =>
      cases e.victimId with
      | none => simp
      | some v => by_cases hv : v = 0 <;> simp [hv]
  · rw [if_neg ht, if_neg ht]

theorem countKills_append (evs : List TLEvent) (e : TLEvent) (p : Int) :
    countKills (evs ++ [e]) p =
      countKills evs p + (if killOf e = some p then 1 else 0) := by
  unfold countKills
  rw [List.filter_append, List.length_append]
  by_cases h : killOf e = some p <;> simp [h]

theorem firstKillIdx_append_of_some {p : Int} {evs : List TLEvent} {i : Nat}
    (h : firstKillIdx p evs = some i) (e : TLEvent) :
    firstKillIdx p (evs ++ [e]) = some i := by
  induction evs generalizing i with
  | nil => exact absurd h (by simp [firstKillIdx])
  | cons x xs ih =>
    rw [List.cons_append]
    simp only [firstKillIdx] at h ⊢
    by_cases hx : killOf x = some p
    · rw [if_pos hx] at h ⊢
      exact h
    · rw [if_neg hx] at h ⊢
      obtain ⟨j, hj, rfl⟩ := Option.map_eq_some'.mp h
      rw [ih hj]
      rfl

theorem firstKillIdx_append_of_none {p : Int} {evs : List TLEvent}
    (h : firstKillIdx p evs = none) (e : TLEvent) :
    firstKillIdx p (evs ++ [e]) =
      if killOf e = some p then some evs.length else none := by
  induction evs with
  | nil =>
    simp only [List.nil_append, List.length_nil]
    unfold firstKillIdx
    by_cases he : killOf e = some p <;> simp [he, firstKillIdx]
  | cons x xs ih =>
    rw [List.cons_append]
    simp only [firstKillIdx] at h ⊢
    by_cases hx : killOf x = some p
    · rw [if_pos hx] at h
      exact absurd h (by simp)
    · rw [if_neg hx] at h ⊢
      rw [ih (Option.map_eq_none'.mp h)]
      by_cases he : killOf e = some p <;> simp [he, List.length_cons]

theorem firstKillIdx_none_iff (p : Int) (evs : List TLEvent) :
    firstKillIdx p evs = none ↔ countKills evs p = 0 := by
  induction evs with
  | nil => simp [firstKillIdx, countKills]
  | cons x xs ih =>
    unfold firstKillIdx
    by_cases hx : killOf x = some p
    · simp [hx, countKills, List.filter_cons]
    · simp only [if_neg hx, Option.map_eq_none', ih]
      simp [countKills, List.filter_cons, hx]

theorem firstKillIdx_lt_length {p : Int} {evs : List TLEvent} {i : Nat}
    (h : firstKillIdx p evs = some i) : i < evs.length := by
  induction evs generalizing i with
  | nil => exact absurd h (by simp [firstKillIdx])
  | cons x xs ih =>
    unfold firstKillIdx at h
    by_cases hx : killOf x = some p
    · rw [if_pos hx] at h
      cases h
      simp
    · rw [if_neg hx] at h
      obtain ⟨j, hj, rfl⟩ := Option.map_eq_some'.mp h
      have := ih hj
      simp only [List.length_cons]
      omega

theorem bump_map_fst (l : List (Int × Nat)) (k : Int) :
    (bump l k).map Prod.fst =
      if k ∈ l.map Prod.fst then l.map Prod.fst else l.map Prod.fst ++ [k] := by
  induction l with
  | nil => simp [bump]
  | cons p rest ih =>
    unfold bump
    by_cases hp : p.1 = k
    · simp [hp]
    · simp only [if_neg hp, List.map_cons, ih]
      by_cases hk : k ∈ rest.map Prod.fst
      · simp [hk, Ne.symm hp]
      · simp [hk, Ne.symm hp]

theorem bump_spec (l : List (Int × Nat)) (k : Int) (hn : (l.map Prod.fst).Nodup) :
    ∀ pr ∈ bump l k,
      (pr.1 ≠ k ∧ pr ∈ l) ∨
      (pr.1 = k ∧ ((k ∉ l.map Prod.fst ∧ pr.2 = 1) ∨ ∃ n, (k, n) ∈ l ∧ pr.2 = n + 1)) := by
  induction l with
  | nil =>
    intro pr hpr
    simp only [bump, List.mem_singleton] at hpr
    subst hpr
    exact Or.inr ⟨rfl, Or.inl ⟨by simp, rfl⟩⟩
  | cons p rest ih =>
    intro pr hpr
    simp only [List.map_cons, List.nodup_cons] at hn
    unfold bump at hpr
    by_cases hp : p.1 = k
    · rw [if_pos hp] at hpr
      rcases List.mem_cons.mp hpr with rfl | hmem
      · refine Or.inr ⟨hp, Or.inr ⟨p.2, ?_, rfl⟩⟩
        have : (k, p.2) = p := by
          rw [← hp]
        rw [this]
        exact List.mem_cons_self p rest
      · refine Or.inl ⟨?_, List.mem_cons_of_mem p hmem⟩
        intro hc
        apply hn.1
        rw [hp, ← hc]
        exact List.mem_map_of_mem Prod.fst hmem
    · rw [if_neg hp] at hpr
      rcases List.mem_cons.mp hpr with rfl | hmem
      · exact Or.inl ⟨hp, List.mem_cons_self pr rest⟩
      · rcases ih hn.2 pr hmem with ⟨hne, hmem2⟩ | ⟨heq, hcase⟩
        · exact Or.inl ⟨hne, List.mem_cons_of_mem p hmem2⟩
        · refine Or.inr ⟨heq, ?_⟩
          rcases hcase with ⟨hnotin, h1⟩ | ⟨n, hmem2, h2⟩
          · refine Or.inl ⟨?_, h1⟩
            intro hmemk
            simp only [List.map_cons, List.mem_cons] at hmemk
            rcases hmemk with hk1 | hk2
            · exact hp hk1.symm
            · exact hnotin hk2
          · exact Or.inr ⟨n, List.mem_cons_of_mem p hmem2, h2⟩

theorem topAux_spec (l : List (Int × Nat)) :
    ∀ acc : Option Int × Nat,
      (l.foldl (fun acc p => if p.2 > acc.2 then (some p.1, p.2) else acc) acc = acc ∧
        ∀ pr ∈ l, pr.2 ≤ acc.2) ∨
      (∃ (i : Nat) (hi : i < l.length),
        l.foldl (fun acc p => if p.2 > acc.2 then (some p.1, p.2) else acc) acc =
          (some (l.get ⟨i, hi⟩).1, (l.get ⟨i, hi⟩).2) ∧
        acc.2 < (l.get ⟨i, hi⟩).2 ∧
        (∀ pr ∈ l, pr.2 ≤ (l.get ⟨i, hi⟩).2) ∧
        ∀ (j : Nat) (hj : j < l.length), j < i → (l.get ⟨j, hj⟩).2 < (l.get ⟨i, hi⟩).2) := by
  induction l with
  | nil => intro acc; left; exact ⟨rfl, by simp⟩
  | cons p rest ih =>
    intro acc
    simp only [List.foldl_cons]
    by_cases hp : p.2 > acc.2
    · rw [if_pos hp]
      rcases ih (some p.1, p.2) with ⟨heq, hle⟩ | ⟨i, hi, heq, hacc, hle, hstrict⟩
      · right
        refine ⟨0, by simp, by simpa using heq, by simpa using hp, ?_, ?_⟩
        · intro pr hpr
          rcases List.mem_cons.mp hpr with rfl | hpr
          · simp
          · simpa using hle pr hpr
        · intro j hj hj0
          omega
      · right
        refine ⟨i + 1, by simpa using hi, ?_, ?_, ?_, ?_⟩
        · simpa [List.get_cons_succ] using heq
        · simp only [List.get_cons_succ]
          exact lt_trans hp hacc
        · intro pr hpr
          rcases List.mem_cons.mp hpr with rfl | hpr
          · simpa [List.get_cons_succ] using le_of_lt hacc
          · simpa [List.get_cons_succ] using hle pr hpr
        · intro j hj hji
          cases j with
          | zero => simpa [List.get_cons_succ] using hacc
          | succ j0 =>
            simp only [List.get_cons_succ]
            exact hstrict j0 (by simpa using hj) (by omega)
    · rw [if_neg hp]
      rcases ih acc with ⟨heq, hle⟩ | ⟨i, hi, heq, hacc, hle, hstrict⟩
      · left
        refine ⟨heq, ?_⟩
        intro pr hpr
        rcases List.mem_cons.mp hpr with rfl | hpr
        · omega
        · exact hle pr hpr
      · right
        refine ⟨i + 1, by simpa using hi, ?_, ?_, ?_, ?_⟩
        · simpa [List.get_cons_succ] using heq
        · simp only [List.get_cons_succ]
          exact hacc
        · intro pr hpr
          rcases List.mem_cons.mp hpr with rfl | hpr
          · simp only [List.get_cons_succ]
            omega
          · simpa [List.get_cons_succ] using hle pr hpr
        · intro j hj hji
          cases j with
          | zero =>
            have h0 : ((p :: rest).get ⟨0, hj⟩) = p := rfl
            rw [h0]
            simp only [List.get_cons_succ]
            omega
          | succ j0 =>
            simp only [List.get_cons_succ]
            exact hstrict j0 (by simpa using hj) (by omega)

theorem killOf_ne_none_iff (e : TLEvent) :
    killOf e ≠ none ↔ (e.type = "CHAMPION_KILL" ∧ validKiller e ≠ none) := by
  unfold killOf
  by_cases ht : e.type = "CHAMPION_KILL" <;> simp [ht]

theorem counts_invariant (m : Int → Option String) (evs : List TLEvent) :
    (∀ pr ∈ (summarizeKills evs m).killer_counts,
      pr.2 = countKills evs pr.1 ∧ 0 < pr.2) ∧
    (∀ p : Int, 0 < countKills evs p →
      p ∈ ((summarizeKills evs m).killer_counts).map Prod.fst) ∧
    (((summarizeKills evs m).killer_counts).map Prod.fst).Nodup ∧
    List.Pairwise (firstKillBefore evs)
      (((summarizeKills evs m).killer_counts).map Prod.fst) := by
  induction evs using List.reverseRecOn with
  | nil =>
    refine ⟨by simp [summarizeKills, summarizeKillsGo], ?_, by simp [summarizeKills, summarizeKillsGo], by simp [summarizeKills, summarizeKillsGo]⟩
    intro p hp
    simp [countKills] at hp
  | append_singleton evs e ih =>
    obtain ⟨ha, hb, hn, hpw⟩ := ih
    have hcounts : (summarizeKills (evs ++ [e]) m).killer_counts =
        match killOf e with
        | some k => bump (summarizeKills evs m).killer_counts k
        | none => (summarizeKills evs m).killer_counts := by
      unfold summarizeKills
      rw [summarizeKillsGo_append]
      exact killStep_counts m _ e
    have hrel : ∀ p q : Int, firstKillBefore evs p q → firstKillBefore (evs ++ [e]) p q := by
      rintro p q ⟨ip, iq, hip, hiq, hlt⟩
      exact ⟨ip, iq, firstKillIdx_append_of_some hip e,
        firstKillIdx_append_of_some hiq e, hlt⟩
    have hsomeIdx : ∀ p : Int, 0 < countKills evs p →
        ∃ i, firstKillIdx p evs = some i := by
      intro p hp
      cases hfi : firstKillIdx p evs with
      | none =>
        rw [firstKillIdx_none_iff] at hfi
        omega
      | some i => exact ⟨i, rfl⟩
    cases hk : killOf e with
    | none =>
      rw [hk] at hcounts
      have hceq : ∀ p : Int, countKills (evs ++ [e]) p = countKills evs p := by
        intro p
        rw [countKills_append]
        simp [hk]
      rw [hcounts]
      refine ⟨?_, ?_, hn, hpw.imp (hrel _ _)⟩
      · intro pr hpr
        rw [hceq]
        exact ha pr hpr
      · intro p hp
        rw [hceq] at hp
        exact hb p hp
    | some k =>
      rw [hk] at hcounts
      have hceq : ∀ p : Int, countKills (evs ++ [e]) p =
          countKills evs p + (if p = k then 1 else 0) := by
        intro p
        rw [countKills_append, hk]
        by_cases hpk : p = k
        · simp [hpk]
        · have hne : (some k : Option Int) ≠ some p := by
            simpa using fun h => hpk h.symm
          simp [hpk, hne]
      rw [hcounts]
      refine ⟨?_, ?_, ?_, ?_⟩
      · intro pr hpr
        rcases bump_spec _ k hn pr hpr with ⟨hne, hmem⟩ | ⟨heq, hcase⟩
        · rw [hceq, if_neg hne]
          have := ha pr hmem
          omega
        · rcases hcase with ⟨hnotin, h1⟩ | ⟨n, hmem2, h2⟩
          · have hc0 : countKills evs k = 0 := by
              by_contra hc
              exact hnotin (hb k (Nat.pos_of_ne_zero hc))
            rw [hceq, heq, if_pos rfl, hc0, h1]
            omega
          · have := ha (k, n) hmem2
            rw [hceq, heq, if_pos rfl, h2]
            simp only at this
            omega
      · intro p hp
        rw [bump_map_fst]
        by_cases hpk : p = k
        · subst hpk
          by_cases hin : p ∈ ((summarizeKills evs m).killer_counts).map Prod.fst
          · rw [if_pos hin]; exact hin
          · rw [if_neg hin]; simp
        · rw [hceq, if_neg hpk] at hp
          have hmem := hb p (by omega)
          by_cases hin : k ∈ ((summarizeKills evs m).killer_counts).map Prod.fst
          · rw [if_pos hin]; exact hmem
          · rw [if_neg hin]; exact List.mem_append_left _ hmem
      · rw [bump_map_fst]
        by_cases hin : k ∈ ((summarizeKills evs m).killer_counts).map Prod.fst
        · rw [if_pos hin]; exact hn
        · rw [if_neg hin]; simp [List.nodup_append, hn, hin]
      · rw [bump_map_fst]
        by_cases hin : k ∈ ((summarizeKills evs m).killer_counts).map Prod.fst
        · rw [if_pos hin]; exact hpw.imp (hrel _ _)
        · rw [if_neg hin]
          refine List.pairwise_append.mpr ⟨hpw.imp (hrel _ _), by simp, ?_⟩
          intro p hp q hq
          rcases List.mem_singleton.mp hq with rfl
          obtain ⟨prp, hprp, rfl⟩ := List.mem_map.mp hp
          have hpa := ha prp hprp
          obtain ⟨ip, hip⟩ := hsomeIdx prp.1 (by omega)
          have hkc0 : countKills evs q = 0 := by
            by_contra hc
            exact hin (hb q (Nat.pos_of_ne_zero hc))
          have hknone : firstKillIdx q evs = none := (firstKillIdx_none_iff _ _).mpr hkc0
          refine ⟨ip, evs.length, firstKillIdx_append_of_some hip e, ?_, ?_⟩
          · rw [firstKillIdx_append_of_none hknone, hk]
            simp
          · exact firstKillIdx_lt_length hip
      

/-- Claim C4.  The summarizer's top killer: in `summarize_fights`, the strict
maximum scan over the insertion-ordered per-killer counts of
`_summarize_kills` returns a participant whose kill count is maximal among all
valid (non-zero integer) killers, and when several killers tie at the maximal
count the winner is the one whose first credited kill occurs earliest in event
order. -/
theorem c4_top_killer (pidMap : Int → Option String) (events : List TLEvent)
    (hk : ∃ e ∈ events, e.type = "CHAMPION_KILL" ∧ validKiller e ≠ none) :
    ∃ p : Int,
      (topKillerFold (summarizeKills events pidMap).killer_counts).1 = some p ∧
      (topKillerFold (summarizeKills events pidMap).killer_counts).2 =
        countKills events p ∧
      (∀ q : Int, countKills events q ≤ countKills events p) ∧
      (∀ q : Int, q ≠ p → countKills events q = countKills events p →
        firstKillBefore events p q) := by
  obtain ⟨ha, hb, hn, hpw⟩ := counts_invariant pidMap events
  set l := (summarizeKills events pidMap).killer_counts with hldef
  obtain ⟨e, he, htype, hvk⟩ := hk
  have hkOf : killOf e ≠ none := (killOf_ne_none_iff e).mpr ⟨htype, hvk⟩
  obtain ⟨k0, hk0⟩ : ∃ k0, killOf e = some k0 := Option.ne_none_iff_exists'.mp hkOf
  have hcnt0 : 0 < countKills events k0 := by
    have hmem : e ∈ events.filter (fun x => decide (killOf x = some k0)) :=
      List.mem_filter.mpr ⟨he, by simp [hk0]⟩
    unfold countKills
    exact List.length_pos.mpr (List.ne_nil_of_mem hmem)
  have hk0mem := hb k0 hcnt0
  rcases topAux_spec l (none, 0) with
    ⟨heq, hle⟩ | ⟨i, hi, heq, hacc, hle, hstrict⟩
  · exfalso
    obtain ⟨pr, hpr, rfl⟩ := List.mem_map.mp hk0mem
    have h1 := (ha pr hpr).2
    have h2 := hle pr hpr
    simp only at h2
    omega
  · have hmapget : ∀ (t : Nat) (ht : t < (l.map Prod.fst).length) (htl : t < l.length),
        (l.map Prod.fst).get ⟨t, ht⟩ = (l.get ⟨t, htl⟩).1 := by
      intro t ht htl
      simp
    have hprmem : l.get ⟨i, hi⟩ ∈ l := List.get_mem l i hi
    have hpa := ha (l.get ⟨i, hi⟩) hprmem
    refine ⟨(l.get ⟨i, hi⟩).1, ?_, ?_, ?_, ?_⟩
    · show (topKillerFold l).1 = some (l.get ⟨i, hi⟩).1
      unfold topKillerFold
      rw [heq]
    · show (topKillerFold l).2 = countKills events (l.get ⟨i, hi⟩).1
      unfold topKillerFold
      rw [heq]
      exact hpa.1
    · intro q
      by_cases hq : 0 < countKills events q
      · obtain ⟨prq, hprq, hfst⟩ := List.mem_map.mp (hb q hq)
        have h1 := (ha prq hprq).1
        have h2 := hle prq hprq
        rw [← hfst, ← h1, ← hpa.1]
        exact h2
      · rw [← hpa.1]
        omega
    · intro q hqne hqeq
      have hqpos : 0 < countKills events q := by
        rw [hqeq, ← hpa.1]
        exact hpa.2
      obtain ⟨⟨j, hj⟩, hjq⟩ := List.mem_iff_get.mp (hb q hqpos)
      have hjl : j < l.length := by simpa using hj
      have hjq2 : (l.get ⟨j, hjl⟩).1 = q := by
        rw [← hmapget j hj hjl]
        exact hjq
      rcases lt_trichotomy j i with hlt | heqi | hgt
      · exfalso
        have hs := hstrict j hjl hlt
        have h1 := (ha (l.get ⟨j, hjl⟩) (List.get_mem l j hjl)).1
        rw [hjq2, hqeq, ← hpa.1] at h1
        omega
      · exfalso
        apply hqne
        rw [← hjq2]
        subst heqi
        rfl
      · have hii : i < (l.map Prod.fst).length := by simpa using hi
        have hpij := List.pairwise_iff_get.mp hpw ⟨i, hii⟩ ⟨j, hj⟩ hgt
        rw [hmapget i hii hi, hmapget j hj hjl, hjq2] at hpij
        exact hpij

/-- Claim C4 (witness): for the kill list 1 kills 2 (assist 3), 1 kills 4,
5 kills 1, the summarizer's top killer is a participant with the maximal
count whose first kill is earliest among ties. -/
theorem c4_top_killer_witness :
    ∃ p : Int,
      (topKillerFold (summarizeKills
        [killEvent 0 (some 1) (some 2) [some 3], killEvent 1000 (some 1) (some 4) [],
         killEvent 2000 (some 5) (some 1) []] (fun _ => none)).killer_counts).1 = some p ∧
      (topKillerFold (summarizeKills
        [killEvent 0 (some 1) (some 2) [some 3], killEvent 1000 (some 1) (some 4) [],
         killEvent 2000 (some 5) (some 1) []] (fun _ => none)).killer_counts).2 =
        countKills [killEvent 0 (some 1) (some 2) [some 3],
          killEvent 1000 (some 1) (some 4) [], killEvent 2000 (some 5) (some 1) []] p ∧
      (∀ q : Int, countKills [killEvent 0 (some 1) (some 2) [some 3],
          killEvent 1000 (some 1) (some 4) [], killEvent 2000 (some 5) (some 1) []] q ≤
        countKills [killEvent 0 (some 1) (some 2) [some 3],
          killEvent 1000 (some 1) (some 4) [], killEvent 2000 (some 5) (some 1) []] p) ∧
      (∀ q : Int, q ≠ p →
        countKills [killEvent 0 (some 1) (some 2) [some 3],
          killEvent 1000 (some 1) (some 4) [], killEvent 2000 (some 5) (some 1) []] q =
        countKills [killEvent 0 (some 1) (some 2) [some 3],
          killEvent 1000 (some 1) (some 4) [], killEvent 2000 (some 5) (some 1) []] p →
        firstKillBefore [killEvent 0 (some 1) (some 2) [some 3],
          killEvent 1000 (some 1) (some 4) [], killEvent 2000 (some 5) (some 1) []] p q) :=
  c4_top_killer (fun _ => none)
    [killEvent 0 (some 1) (some 2) [some 3], killEvent 1000 (some 1) (some 4) [],
     killEvent 2000 (some 5) (some 1) []]
    ⟨killEvent 0 (some 1) (some 2) [some 3], by decide, rfl, by decide⟩


theorem multi_kill_not_mem_fightTags_zero (o : ObjSummary) :
    "multi-kill" ∉ fightTags 0 o := by
  unfold fightTags
  rw [if_neg (by decide : ¬ (3 ≤ 0))]
  by_cases hobj : 0 < o.dragon + o.baron + o.herald + o.atakhan <;> simp [hobj]

/-- Claim C10.  For a fight whose time range contains no kill event with a
valid (non-zero integer) killer id, the summary row has
`top_killer_participantId = -1`, `top_killer_champ = "None"`,
`top_killer_kills = 0`, and its tags never include `"multi-kill"`. -/
theorem c10_no_valid_killer (pidMap : Int → Option String) (events : List TLEvent)
    (f : FightRow) (cfg : ClipConfig)
    (h : ∀ e ∈ eventsInRange events f.fight_start_s f.fight_end_s,
      e.type = "CHAMPION_KILL" → validKiller e = none) :
    (summarizeFight pidMap events f cfg).top_killer_participantId = -1 ∧
    (summarizeFight pidMap events f cfg).top_killer_champ = "None" ∧
    (summarizeFight pidMap events f cfg).top_killer_kills = 0 ∧
    (summarizeFight pidMap events f cfg).tags = String.intercalate ";"
      (fightTags 0 (summarizeObjectives (eventsInRange events f.fight_start_s f.fight_end_s))) ∧
    "multi-kill" ∉
      fightTags 0 (summarizeObjectives (eventsInRange events f.fight_start_s f.fight_end_s)) := by
  have hcounts :
      (summarizeKills (eventsInRange events f.fight_start_s f.fight_end_s) pidMap).killer_counts
        = [] :=
    summarizeKillsGo_counts_nil pidMap _ h ⟨[], [], ∅⟩ rfl
  have htop :
      topKillerFold
        (summarizeKills (eventsInRange events f.fight_start_s f.fight_end_s) pidMap).killer_counts
        = (none, 0) := by
    rw [hcounts]
    rfl
  refine ⟨?_, ?_, ?_, ?_, multi_kill_not_mem_fightTags_zero _⟩ <;>
    simp [summarizeFight, htop]

/-- Claim C10 (witness): a fight over `[0, 60]` seconds whose in-range events
are one sentinel-killer kill and one baron kill summarizes to the `-1`/
`"None"`/`0` top-killer row, with no `"multi-kill"` tag. -/
theorem c10_no_valid_killer_witness :
    (summarizeFight (fun _ => none)
        [killEvent 5000 (some 0) (some 3) [], monsterEvent 10000 "BARON_NASHOR"]
        c10Fight {}).top_killer_participantId = -1 ∧
    (summarizeFight (fun _ => none)
        [killEvent 5000 (some 0) (some 3) [], monsterEvent 10000 "BARON_NASHOR"]
        c10Fight {}).top_killer_champ = "None" ∧
    (summarizeFight (fun _ => none)
        [killEvent 5000 (some 0) (some 3) [], monsterEvent 10000 "BARON_NASHOR"]
        c10Fight {}).top_killer_kills = 0 := by
  have h := c10_no_valid_killer (fun _ => none)
    [killEvent 5000 (some 0) (some 3) [], monsterEvent 10000 "BARON_NASHOR"]
    c10Fight {} (by decide)
  exact ⟨h.1, h.2.1, h.2.2.1⟩

/-- Claim C9 (witness): a table consisting of one noise window maps to the
empty schema-carrying table. -/
theorem c9_no_clusters_empty_witness :
    clusters_to_fights [c9Noise] defaultScoring 30 1 =
      ⟨["match_id", "cluster_id", "segment_id", "fight_start_s", "fight_end_s",
        "duration_s", "window_count", "kills_total", "kills_peak",
        "participants_peak", "objectives_total", "barons_total", "dragons_total",
        "heralds_total", "atakhans_total", "fight_score"], []⟩ :=
  c9_no_clusters_empty [c9Noise] defaultScoring 30 1 (by decide)

theorem splitByGap_sublist (G : Int) :
    ∀ l : List ClusteredRow, ∀ c ∈ splitByGap G l, c.Sublist l := by
  intro l
  induction l with
  | nil => simp [splitByGap]
  | cons r rest ih =>
    cases rest with
    | nil =>
      intro c hc
      simp only [splitByGap, List.mem_singleton] at hc
      subst hc
      simp
    | cons r2 rest2 =>
      intro c hc
      by_cases hgap : r2.t_start_s - r.t_end_s > G
      · rw [splitByGap, if_pos hgap] at hc
        rcases List.mem_cons.mp hc with rfl | hc
        · exact (List.nil_sublist (r2 :: rest2)).cons₂ r
        · exact (ih c hc).cons r
      · rw [splitByGap, if_neg hgap] at hc
        cases hsp : splitByGap G (r2 :: rest2) with
        | nil =>
          rw [hsp] at hc
          simp only [List.mem_singleton] at hc
          subst hc
          simp
        | cons c0 cs =>
          rw [hsp] at hc
          rcases List.mem_cons.mp hc with rfl | hc
          · have h0 : c0.Sublist (r2 :: rest2) := ih c0 (by rw [hsp]; exact List.mem_cons_self c0 cs)
            exact h0.cons₂ r
          · exact (ih c (by rw [hsp]; exact List.mem_cons_of_mem c0 hc)).cons r

theorem splitByGap_ne_nil (G : Int) :
    ∀ l : List ClusteredRow, ∀ c ∈ splitByGap G l, c ≠ [] := by
  intro l
  induction l with
  | nil => simp [splitByGap]
  | cons r rest ih =>
    cases rest with
    | nil =>
      intro c hc
      simp only [splitByGap, List.mem_singleton] at hc
      subst hc
      simp
    | cons r2 rest2 =>
      intro c hc
      by_cases hgap : r2.t_start_s - r.t_end_s > G
      · rw [splitByGap, if_pos hgap] at hc
        rcases List.mem_cons.mp hc with rfl | hc
        · simp
        · exact ih c hc
      · rw [splitByGap, if_neg hgap] at hc
        cases hsp : splitByGap G (r2 :: rest2) with
        | nil =>
          rw [hsp] at hc
          simp only [List.mem_singleton] at hc
          subst hc
          simp
        | cons c0 cs =>
          rw [hsp] at hc
          rcases List.mem_cons.mp hc with rfl | hc
          · simp
          · exact ih c (by rw [hsp]; exact List.mem_cons_of_mem c0 hc)

theorem splitByGap_head (G : Int) (r : ClusteredRow) (rest : List ClusteredRow) :
    ∃ c0 cs, splitByGap G (r :: rest) = c0 :: cs ∧ c0.head? = some r := by
  cases rest with
  | nil => exact ⟨[r], [], rfl, rfl⟩
  | cons r2 rest2 =>
    by_cases hgap : r2.t_start_s - r.t_end_s > G
    · exact ⟨[r], splitByGap G (r2 :: rest2), by rw [splitByGap, if_pos hgap], rfl⟩
    · cases hsp : splitByGap G (r2 :: rest2) with
      | nil => exact ⟨[r], [], by rw [splitByGap, if_neg hgap, hsp], rfl⟩
      | cons c0 cs =>
        exact ⟨r :: c0, cs, by rw [splitByGap, if_neg hgap, hsp], rfl⟩

theorem splitByGap_chain (G : Int) :
    ∀ l : List ClusteredRow,
      List.Chain' (fun c d => ∀ x ∈ d.head?, ∀ y ∈ c.getLast?,
        x.t_start_s - y.t_end_s > G) (splitByGap G l) := by
  intro l
  induction l with
  | nil => simp [splitByGap]
  | cons r rest ih =>
    cases rest with
    | nil => simp [splitByGap]
    | cons r2 rest2 =>
      by_cases hgap : r2.t_start_s - r.t_end_s > G
      · rw [splitByGap, if_pos hgap]
        refine List.chain'_cons'.mpr ⟨?_, ih⟩
        intro b hb x hx y hy
        obtain ⟨c0, cs, hsp, hhead⟩ := splitByGap_head G r2 rest2
        rw [hsp] at hb
        simp only [List.head?_cons, Option.mem_def, Option.some.injEq] at hb
        subst hb
        rw [hhead] at hx
        simp only [Option.mem_def, Option.some.injEq] at hx hy
        subst hx
        simp only [List.getLast?_singleton, Option.some.injEq] at hy
        subst hy
        exact hgap
      · obtain ⟨c0, cs, hsp, hhead⟩ := splitByGap_head G r2 rest2
        rw [splitByGap, if_neg hgap, hsp]
        rw [hsp] at ih
        have hc0ne : c0 ≠ [] :=
          splitByGap_ne_nil G (r2 :: rest2) c0 (by rw [hsp]; exact List.mem_cons_self c0 cs)
        obtain ⟨hihhead, hihtail⟩ := List.chain'_cons'.mp ih
        refine List.chain'_cons'.mpr ⟨?_, hihtail⟩
        intro b hb x hx y hy
        refine hihhead b hb x hx y ?_
        obtain ⟨z, zs, rfl⟩ := List.exists_cons_of_ne_nil hc0ne
        rw [List.getLast?_cons_cons] at hy
        exact hy

theorem foldl_min_eq_of_le (rs : List ClusteredRow) :
    ∀ a : Int, (∀ x ∈ rs, a ≤ x.t_start_s) →
      rs.foldl (fun acc x => min acc x.t_start_s) a = a := by
  induction rs with
  | nil => intro a _; rfl
  | cons x xs ih =>
    intro a h
    simp only [List.foldl_cons]
    rw [min_eq_left (h x (List.mem_cons_self x xs))]
    exact ih a fun y hy => h y (List.mem_cons_of_mem x hy)

theorem foldl_min_le (rs : List ClusteredRow) :
    ∀ a : Int, rs.foldl (fun acc x => min acc x.t_start_s) a ≤ a := by
  induction rs with
  | nil => intro a; exact le_refl a
  | cons x xs ih =>
    intro a
    simp only [List.foldl_cons]
    exact le_trans (ih (min a x.t_start_s)) (min_le_left a x.t_start_s)

theorem le_foldl_max (rs : List ClusteredRow) :
    ∀ a : Int, a ≤ rs.foldl (fun acc x => max acc x.t_end_s) a := by
  induction rs with
  | nil => intro a; exact le_refl a
  | cons x xs ih =>
    intro a
    simp only [List.foldl_cons]
    exact le_trans (le_max_left a x.t_end_s) (ih (max a x.t_end_s))

theorem foldl_max_le_of_le (rs : List ClusteredRow) :
    ∀ a B : Int, a ≤ B → (∀ x ∈ rs, x.t_end_s ≤ B) →
      rs.foldl (fun acc x => max acc x.t_end_s) a ≤ B := by
  induction rs with
  | nil => intro a B h _; exact h
  | cons x xs ih =>
    intro a B h hall
    simp only [List.foldl_cons]
    exact ih _ B (max_le h (hall x (List.mem_cons_self x xs)))
      fun y hy => hall y (List.mem_cons_of_mem x hy)

theorem pairwise_start_le_getLast :
    ∀ (c : List ClusteredRow) (hne : c ≠ []), List.Pairwise rowLE c →
      ∀ x ∈ c, x.t_start_s ≤ (c.getLast hne).t_start_s := by
  intro c
  induction c with
  | nil => intro hne; exact absurd rfl hne
  | cons y t ih =>
    intro hne hp x hx
    cases t with
    | nil =>
      rcases List.mem_singleton.mp hx with rfl
      exact le_refl _
    | cons y2 t2 =>
      rw [List.getLast_cons (by simp : (y2 :: t2) ≠ [])]
      rcases List.mem_cons.mp hx with rfl | hx
      · exact (List.pairwise_cons.mp hp).1 _ (List.getLast_mem _)
      · exact ih (by simp) (List.pairwise_cons.mp hp).2 x hx

theorem aggSegment_match_id (s : FightScoringConfig) (m : String) (c : Int)
    (sid : Nat) (ch : List ClusteredRow) :
    (aggSegment s m c sid ch).match_id = m := by
  cases ch <;> rfl

theorem aggSegment_cluster_id (s : FightScoringConfig) (m : String) (c : Int)
    (sid : Nat) (ch : List ClusteredRow) :
    (aggSegment s m c sid ch).cluster_id = c := by
  cases ch <;> rfl

theorem aggSegment_segment_id (s : FightScoringConfig) (m : String) (c : Int)
    (sid : Nat) (ch : List ClusteredRow) :
    (aggSegment s m c sid ch).segment_id = (sid : Int) := by
  cases ch <;> rfl

theorem aggSegment_start (s : FightScoringConfig) (m : String) (c : Int) (sid : Nat)
    (r : ClusteredRow) (rs : List ClusteredRow)
    (hall : ∀ x ∈ rs, r.t_start_s ≤ x.t_start_s) :
    (aggSegment s m c sid (r :: rs)).fight_start_s = r.t_start_s := by
  simp only [aggSegment]
  exact foldl_min_eq_of_le rs _ hall

theorem aggSegment_end_le (s : FightScoringConfig) (m : String) (c : Int) (sid : Nat)
    (ch : List ClusteredRow) (hne : ch ≠ []) (hp : List.Pairwise rowLE ch)
    (w : Int) (hend : ∀ x ∈ ch, x.t_end_s = x.t_start_s + w) :
    (aggSegment s m c sid ch).fight_end_s ≤ (ch.getLast hne).t_end_s := by
  obtain ⟨r, rs, rfl⟩ := List.exists_cons_of_ne_nil hne
  simp only [aggSegment]
  have hB : ∀ x ∈ r :: rs, x.t_end_s ≤ ((r :: rs).getLast hne).t_end_s := by
    intro x hx
    rw [hend x hx, hend _ (List.getLast_mem hne)]
    have := pairwise_start_le_getLast (r :: rs) hne hp x hx
    omega
  exact foldl_max_le_of_le rs _ _ (hB r (List.mem_cons_self r rs))
    fun y hy => hB y (List.mem_cons_of_mem r hy)

theorem aggSegment_start_le_end (s : FightScoringConfig) (m : String) (c : Int)
    (sid : Nat) (ch : List ClusteredRow) (hne : ch ≠ [])
    (w : Int) (hw : 0 ≤ w) (hend : ∀ x ∈ ch, x.t_end_s = x.t_start_s + w) :
    (aggSegment s m c sid ch).fight_start_s ≤ (aggSegment s m c sid ch).fight_end_s := by
  obtain ⟨r, rs, rfl⟩ := List.exists_cons_of_ne_nil hne
  simp only [aggSegment]
  have h1 : rs.foldl (fun acc x => min acc x.t_start_s) r.t_start_s ≤ r.t_start_s :=
    foldl_min_le rs r.t_start_s
  have h2 : r.t_end_s ≤ rs.foldl (fun acc x => max acc x.t_end_s) r.t_end_s :=
    le_foldl_max rs r.t_end_s
  have h3 : r.t_end_s = r.t_start_s + w := hend r (List.mem_cons_self r rs)
  omega

theorem mem_segsFrom (scoring : FightScoringConfig) (m : String) (c : Int) :
    ∀ (chs : List (List ClusteredRow)) (sid : Nat) (f : FightRow),
      f ∈ segsFrom scoring m c sid chs →
      ∃ (i : Nat) (hi : i < chs.length),
        f = aggSegment scoring m c (sid + i) (chs.get ⟨i, hi⟩) := by
  intro chs
  induction chs with
  | nil =>
    intro sid f hf
    simp [segsFrom] at hf
  | cons ch chs ih =>
    intro sid f hf
    simp only [segsFrom] at hf
    rcases List.mem_cons.mp hf with rfl | hf
    · exact ⟨0, by simp, by simp⟩
    · obtain ⟨i, hi, heq⟩ := ih (sid + 1) f hf
      refine ⟨i + 1, by simpa using hi, ?_⟩
      rw [heq]
      have harith : sid + 1 + i = sid + (i + 1) := by omega
      rw [harith]
      rfl

theorem group_agg_rel (scoring : FightScoringConfig) (m : String) (c : Int)
    (G w : Int) (hw : 0 ≤ w) (hG : 0 ≤ G) (l : List ClusteredRow)
    (hp : List.Pairwise rowLE l) (hend : ∀ x ∈ l, x.t_end_s = x.t_start_s + w) :
    ∀ (i j : Nat) (hi : i < (splitByGap G l).length) (hj : j < (splitByGap G l).length),
      i < j →
      (aggSegment scoring m c i ((splitByGap G l).get ⟨i, hi⟩)).fight_end_s <
        (aggSegment scoring m c j ((splitByGap G l).get ⟨j, hj⟩)).fight_start_s ∧
      (j = i + 1 →
        (aggSegment scoring m c j ((splitByGap G l).get ⟨j, hj⟩)).fight_start_s -
          (aggSegment scoring m c i ((splitByGap G l).get ⟨i, hi⟩)).fight_end_s > G) := by
  have hchmem : ∀ (t : Nat) (ht : t < (splitByGap G l).length),
      (splitByGap G l).get ⟨t, ht⟩ ∈ splitByGap G l := fun t ht => List.get_mem _ t ht
  have hchne : ∀ (t : Nat) (ht : t < (splitByGap G l).length),
      (splitByGap G l).get ⟨t, ht⟩ ≠ [] :=
    fun t ht => splitByGap_ne_nil G l _ (hchmem t ht)
  have hchsub : ∀ (t : Nat) (ht : t < (splitByGap G l).length),
      ((splitByGap G l).get ⟨t, ht⟩).Sublist l :=
    fun t ht => splitByGap_sublist G l _ (hchmem t ht)
  have hchp : ∀ (t : Nat) (ht : t < (splitByGap G l).length),
      List.Pairwise rowLE ((splitByGap G l).get ⟨t, ht⟩) :=
    fun t ht => hp.sublist (hchsub t ht)
  have hchend : ∀ (t : Nat) (ht : t < (splitByGap G l).length),
      ∀ x ∈ (splitByGap G l).get ⟨t, ht⟩, x.t_end_s = x.t_start_s + w :=
    fun t ht x hx => hend x ((hchsub t ht).mem hx)
  -- the gap between consecutive aggregated segments, at arbitrary segment ids
  have hgapstep : ∀ (sa sb t : Nat) (ht1 : t + 1 < (splitByGap G l).length),
      (aggSegment scoring m c sb ((splitByGap G l).get ⟨t + 1, ht1⟩)).fight_start_s -
        (aggSegment scoring m c sa
          ((splitByGap G l).get ⟨t, Nat.lt_of_succ_lt ht1⟩)).fight_end_s > G := by
    intro sa sb t ht1
    have ht : t < (splitByGap G l).length := Nat.lt_of_succ_lt ht1
    have hchain := List.chain'_iff_get.mp (splitByGap_chain G l) t (by omega)
    obtain ⟨r1, rs1, hch1⟩ := List.exists_cons_of_ne_nil (hchne (t + 1) ht1)
    have hd : ((splitByGap G l).get ⟨t + 1, ht1⟩).head? = some r1 := by
      rw [hch1]
      rfl
    have hlast := List.getLast?_eq_getLast _ (hchne t ht)
    have hgap := hchain r1 (by rw [hd]; rfl) _ (by rw [hlast]; rfl)
    have hstart :
        (aggSegment scoring m c sb ((splitByGap G l).get ⟨t + 1, ht1⟩)).fight_start_s
          = r1.t_start_s := by
      rw [hch1]
      refine aggSegment_start scoring m c sb r1 rs1 ?_
      have hp1 := hchp (t + 1) ht1
      rw [hch1] at hp1
      exact fun x hx => (List.pairwise_cons.mp hp1).1 x hx
    have hendle :=
      aggSegment_end_le scoring m c sa _ (hchne t ht) (hchp t ht) w (hchend t ht)
    rw [hstart]
    omega
  have hstep : ∀ (sa sb t : Nat) (ht1 : t + 1 < (splitByGap G l).length),
      (aggSegment scoring m c sa
        ((splitByGap G l).get ⟨t, Nat.lt_of_succ_lt ht1⟩)).fight_end_s <
      (aggSegment scoring m c sb ((splitByGap G l).get ⟨t + 1, ht1⟩)).fight_start_s := by
    intro sa sb t ht1
    have := hgapstep sa sb t ht1
    omega
  have hmono : ∀ (sa t : Nat) (ht : t < (splitByGap G l).length),
      (aggSegment scoring m c sa ((splitByGap G l).get ⟨t, ht⟩)).fight_start_s ≤
        (aggSegment scoring m c sa ((splitByGap G l).get ⟨t, ht⟩)).fight_end_s :=
    fun sa t ht =>
      aggSegment_start_le_end scoring m c sa _ (hchne t ht) w hw (hchend t ht)
  -- all-pairs disjointness by induction on the later index
  have hall : ∀ (j : Nat) (hj : j < (splitByGap G l).length),
      ∀ (sa sb i : Nat) (hi : i < (splitByGap G l).length), i < j →
      (aggSegment scoring m c sa ((splitByGap G l).get ⟨i, hi⟩)).fight_end_s <
        (aggSegment scoring m c sb ((splitByGap G l).get ⟨j, hj⟩)).fight_start_s := by
    intro j
    induction j with
    | zero => intro hj sa sb i hi hij; omega
    | succ j0 ihj =>
      intro hj sa sb i hi hij
      rcases Nat.lt_succ_iff_lt_or_eq.mp hij with hlt | rfl
      · have h1 := ihj (Nat.lt_of_succ_lt hj) sa sb i hi hlt
        have h2 := hmono sb j0 (Nat.lt_of_succ_lt hj)
        have h3 := hstep sb sb j0 hj
        omega
      · exact hstep sa sb i hj
  intro i j hi hj hij
  refine ⟨hall j hj i j i hi hij, ?_⟩
  rintro rfl
  exact hgapstep i (i + 1) i hj

theorem clusters_to_fights_rows (input : List ClusteredRow)
    (scoring : FightScoringConfig) (w mgw : Int) :
    (clusters_to_fights input scoring w mgw).rows =
      if (input.filter (fun r => decide (0 ≤ r.cluster_id))).isEmpty then []
      else List.insertionSort fightLE
        (((groupKeys (input.filter (fun r => decide (0 ≤ r.cluster_id)))).map
          (groupFights scoring (w * mgw)
            (input.filter (fun r => decide (0 ≤ r.cluster_id))))).flatten) := by
  unfold clusters_to_fights
  by_cases hke : (input.filter (fun r => decide (0 ≤ r.cluster_id))).isEmpty <;>
    simp [hke]

/-- Claim C3.  For inputs satisfying the `WindowFeature` shape
(`t_end_s = t_start_s + window_seconds`, with non-negative window length and
gap threshold), any two fight segments of the same `(match_id, cluster_id)`
group produced by `clusters_to_fights` have disjoint time intervals (the
earlier segment ends strictly before the later one starts), and consecutive
segments are separated by strictly more than
`window_seconds * max_gap_windows`. -/
theorem c3_segments_disjoint (input : List ClusteredRow) (scoring : FightScoringConfig)
    (w mgw : Int) (hw : 0 ≤ w) (hG : 0 ≤ w * mgw)
    (hend : ∀ r ∈ input, r.t_end_s = r.t_start_s + w)
    (f g : FightRow)
    (hf : f ∈ (clusters_to_fights input scoring w mgw).rows)
    (hg : g ∈ (clusters_to_fights input scoring w mgw).rows)
    (hm : f.match_id = g.match_id) (hc : f.cluster_id = g.cluster_id)
    (hlt : f.segment_id < g.segment_id) :
    f.fight_end_s < g.fight_start_s ∧
    (g.segment_id = f.segment_id + 1 →
      g.fight_start_s - f.fight_end_s > w * mgw) := by
  rw [clusters_to_fights_rows] at hf hg
  by_cases hke : (input.filter (fun r => decide (0 ≤ r.cluster_id))).isEmpty
  · rw [if_pos hke] at hf
    exact absurd hf (List.not_mem_nil f)
  · rw [if_neg hke] at hf hg
    set kept := input.filter (fun r => decide (0 ≤ r.cluster_id)) with hkept
    have hf2 := (List.mem_insertionSort fightLE).mp hf
    have hg2 := (List.mem_insertionSort fightLE).mp hg
    obtain ⟨glf, hglf, hfgl⟩ := List.mem_flatten.mp hf2
    obtain ⟨keyf, hkeyf, rfl⟩ := List.mem_map.mp hglf
    obtain ⟨glg, hglg, hggl⟩ := List.mem_flatten.mp hg2
    obtain ⟨keyg, hkeyg, rfl⟩ := List.mem_map.mp hglg
    unfold groupFights at hfgl hggl
    obtain ⟨ifx, hif, hfeq⟩ := mem_segsFrom scoring keyf.1 keyf.2 _ 0 f hfgl
    obtain ⟨igx, hig, hgeq⟩ := mem_segsFrom scoring keyg.1 keyg.2 _ 0 g hggl
    simp only [Nat.zero_add] at hfeq hgeq
    have hfm : f.match_id = keyf.1 := by rw [hfeq]; exact aggSegment_match_id ..
    have hfc : f.cluster_id = keyf.2 := by rw [hfeq]; exact aggSegment_cluster_id ..
    have hgm : g.match_id = keyg.1 := by rw [hgeq]; exact aggSegment_match_id ..
    have hgc : g.cluster_id = keyg.2 := by rw [hgeq]; exact aggSegment_cluster_id ..
    have hkeyeq : keyg = keyf := by
      apply Prod.ext
      · rw [← hgm, ← hm, hfm]
      · rw [← hgc, ← hc, hfc]
    subst hkeyeq
    have hfs : f.segment_id = (ifx : Int) := by rw [hfeq]; exact aggSegment_segment_id ..
    have hgs : g.segment_id = (igx : Int) := by rw [hgeq]; exact aggSegment_segment_id ..
    have hij : ifx < igx := by
      rw [hfs, hgs] at hlt
      exact_mod_cast hlt
    have hsorted : List.Pairwise rowLE
        (List.insertionSort rowLE (groupRows kept keyg)) :=
      List.sorted_insertionSort rowLE (groupRows kept keyg)
    have hend2 : ∀ x ∈ List.insertionSort rowLE (groupRows kept keyg),
        x.t_end_s = x.t_start_s + w := by
      intro x hx
      have hx2 := (List.mem_insertionSort rowLE).mp hx
      have hx3 := (List.mem_filter.mp hx2).1
      have hx4 := (List.mem_filter.mp hx3).1
      exact hend x hx4
    have hrel := group_agg_rel scoring keyg.1 keyg.2 (w * mgw) w hw hG
      (List.insertionSort rowLE (groupRows kept keyg)) hsorted hend2
      ifx igx hif hig hij
    rw [← hfeq, ← hgeq] at hrel
    refine ⟨hrel.1, ?_⟩
    intro hsucc
    refine hrel.2 ?_
    rw [hfs, hgs] at hsucc
    exact_mod_cast hsucc

/-- Claim C3 (witness): two all-zero windows of one cluster at `[0, 30)` and
`[90, 120)` split into two segments whose intervals are disjoint and separated
by more than 30 seconds. -/
theorem c3_segments_disjoint_witness :
    (aggSegment defaultScoring "M" 0 0 [c3RowA]).fight_end_s <
      (aggSegment defaultScoring "M" 0 1 [c3RowB]).fight_start_s ∧
    ((aggSegment defaultScoring "M" 0 1 [c3RowB]).segment_id =
        (aggSegment defaultScoring "M" 0 0 [c3RowA]).segment_id + 1 →
      (aggSegment defaultScoring "M" 0 1 [c3RowB]).fight_start_s -
        (aggSegment defaultScoring "M" 0 0 [c3RowA]).fight_end_s > 30 * 1) := by
  have hrows : (clusters_to_fights [c3RowA, c3RowB] defaultScoring 30 1).rows =
      List.insertionSort fightLE [aggSegment defaultScoring "M" 0 0 [c3RowA],
        aggSegment defaultScoring "M" 0 1 [c3RowB]] := rfl
  have hf : aggSegment defaultScoring "M" 0 0 [c3RowA] ∈
      (clusters_to_fights [c3RowA, c3RowB] defaultScoring 30 1).rows := by
    rw [hrows]
    exact (List.mem_insertionSort fightLE).mpr (List.mem_cons_self _ _)
  have hg : aggSegment defaultScoring "M" 0 1 [c3RowB] ∈
      (clusters_to_fights [c3RowA, c3RowB] defaultScoring 30 1).rows := by
    rw [hrows]
    exact (List.mem_insertionSort fightLE).mpr
      (List.mem_cons_of_mem _ (List.mem_cons_self _ _))
  exact c3_segments_disjoint [c3RowA, c3RowB] defaultScoring 30 1 (by decide) (by decide)
    (by decide) _ _ hf hg rfl rfl (by decide)
